import Mathlib

set_option maxRecDepth 100000

/-!
Verification of the heuristic document-understanding engine of the
job-application autofill repository: the form-field classifier
(src/scripts/formDetector.js), the Greenhouse adapter confidence overlay
(src/scripts/siteAdapters/greenhouse.js) and the resume parser
(src/scripts/resumeParser.js), shallowly embedded in Lean.

JavaScript strings are embedded as `String`, JS numbers used for scores as
`Nat` (they are always non-negative integers here) and confidence values as
`ℚ` (all arithmetic on them is exact decimal arithmetic, no rounding occurs).
JS `str.includes(pat)` is embedded as `strContains`.
-/

/-- Containment check: `charsContains pat s` holds when `pat` occurs
contiguously inside `s`.  This is the semantics of JavaScript
`s.includes(pat)` (the empty pattern is contained in every string). -/
def charsContains (pat : List Char) : List Char → Bool
  | [] => pat.isEmpty
  | c :: rest => pat.isPrefixOf (c :: rest) || charsContains pat rest

/-- Embedding of JavaScript `s.includes(pat)`. -/
def strContains (s pat : String) : Bool :=
  charsContains pat.toList s.toList

namespace FormDetector

/-- Embedding of the metadata record built by
`FormDetector.getFieldMetadata` (formDetector.js, lines 87-177).  All string
fields are the lower-cased, trimmed values the extractor produces; the DOM
reads themselves are outside the embedded core.  Defaults are the values the
extractor produces for a control carrying no such attribute. -/
structure FieldMetadata where
  id : String := ""
  name : String := ""
  type : String := ""
  placeholder : String := ""
  className : String := ""
  value : String := ""
  autocomplete : String := ""
  ariaLabel : String := ""
  ariaLabelledBy : String := ""
  ariaDescribedBy : String := ""
  title : String := ""
  dataAttributes : List (String × String) := []
  labelText : String := ""
  labelForField : Bool := false
  required : Bool := false
  pattern : String := ""
  minLength : Nat := 0
  maxLength : Nat := 0
  min : String := ""
  max : String := ""
  options : List String := []

/-- The data-attribute part of `FormDetector.calculateMatchScore`
(formDetector.js, lines 443-447): one point per data attribute whose key or
value contains the trigger phrase. -/
def dataAttrScore (attrs : List (String × String)) (pat : String) : Nat :=
  attrs.foldl
    (fun score kv =>
      if strContains kv.1 pat || strContains kv.2 pat then score + 1 else score)
    0

/-- The body of the per-phrase loop of `FormDetector.calculateMatchScore`
(formDetector.js, lines 407-448): the sequence of conditional additions the
source applies to the running score for one trigger phrase. -/
def scoreStep (m : FieldMetadata) (score : Nat) (pat : String) : Nat :=
  let score := if strContains m.id pat then score + 3 else score
  let score := if strContains m.name pat then score + 3 else score
  let score :=
    if strContains m.labelText pat then
      if m.labelForField then score + 5 + 2 else score + 5
    else score
  let score := if strContains m.placeholder pat then score + 2 else score
  let score := if strContains m.ariaLabel pat then score + 3 else score
  let score := if strContains m.title pat then score + 1 else score
  score + dataAttrScore m.dataAttributes pat

/-- Embedding of `FormDetector.calculateMatchScore` (formDetector.js,
lines 403-451): for every trigger phrase, add weighted points for each
metadata channel containing the phrase as a substring; contributions
accumulate over all phrases. -/
def calculateMatchScore (m : FieldMetadata) (phrases : List String) : Nat :=
  phrases.foldl (scoreStep m) 0

/-- The pattern catalog defined inside `FormDetector.categorizeField`
(formDetector.js, lines 229-348), in source iteration order
(JS object property insertion order). -/
def patternCatalog : List (String × List (String × List String)) := [
  ("personal", [
    ("name", ["name", "full name", "full_name"]),
    ("firstName", ["first name", "firstname", "first_name", "fname", "given name", "given_name"]),
    ("lastName", ["last name", "lastname", "last_name", "lname", "family name", "surname"]),
    ("middleName", ["middle name", "middlename", "middle_name", "mname", "middle initial"]),
    ("email", ["email", "e-mail", "email address", "e-mail address"]),
    ("phone", ["phone", "telephone", "mobile", "cell", "phone number"]),
    ("address", ["address", "street", "street address", "address line", "mailing address"]),
    ("city", ["city", "town", "municipality"]),
    ("state", ["state", "province", "region"]),
    ("zipCode", ["zip", "zipcode", "zip code", "postal", "postal code"]),
    ("country", ["country", "nation"])]),
  ("education", [
    ("school", ["school", "university", "college", "institution", "academy", "educational institution"]),
    ("degree", ["degree", "degree type", "diploma", "certification", "qualification"]),
    ("fieldOfStudy", ["field of study", "major", "specialization", "concentration", "discipline"]),
    ("graduationDate", ["graduation date", "graduation", "graduated", "completion date", "completion"]),
    ("gpa", ["gpa", "grade point average", "grade average", "academic average"])]),
  ("experience", [
    ("company", ["company", "employer", "organization", "firm", "business"]),
    ("title", ["job title", "title", "position", "role", "designation"]),
    ("startDate", ["start date", "from date", "employment start", "date from"]),
    ("endDate", ["end date", "to date", "employment end", "date to"]),
    ("description", ["description", "job description", "responsibilities", "duties"]),
    ("currentJob", ["current job", "current position", "current employer", "present employer"])]),
  ("skills", [
    ("skills", ["skills", "abilities", "competencies", "expertise", "proficiencies"]),
    ("languages", ["languages", "spoken languages", "programming languages"]),
    ("certifications", ["certifications", "certificates", "credentials", "licenses"])]),
  ("other", [
    ("salary", ["salary", "compensation", "pay", "wage", "remuneration", "expected salary"]),
    ("startDate", ["start date", "availability", "available from", "when can you start"]),
    ("relocation", ["relocation", "willing to relocate", "can relocate", "relocate"]),
    ("citizenship", ["citizenship", "citizen", "work authorization", "authorized to work", "visa"]),
    ("linkedin", ["linkedin", "linkedin url", "linkedin profile"]),
    ("website", ["website", "personal website", "portfolio", "blog"]),
    ("github", ["github", "github url", "github profile", "gitlab"]),
    ("twitter", ["twitter", "twitter url", "twitter handle", "x.com"]),
    ("reference", ["reference", "references", "referrer", "referral"]),
    ("coverLetter", ["cover letter", "cover_letter", "coverletter", "letter of interest"]),
    ("resume", ["resume", "cv", "curriculum vitae", "upload resume", "upload cv"])])]

/-- The catalog flattened to `(category, subcategory, phrases)` triples, in
the order the nested loops of `categorizeField` visit them. -/
def catalogEntries : List (String × String × List String) :=
  patternCatalog.flatMap (fun c => c.2.map (fun s => (c.1, s.1, s.2)))

/-- The three loop variables of `categorizeField` (formDetector.js,
lines 351-353): current best category, subcategory and match score. -/
structure BestAcc where
  category : String
  subcategory : String
  score : Nat
  deriving Repr, DecidableEq

/-- One iteration of the best-match loop of `categorizeField`
(formDetector.js, lines 356-366): a strictly greater score replaces the
current best, so ties keep the earliest-encountered pair. -/
def bestStep (m : FieldMetadata) (acc : BestAcc) (e : String × String × List String) :
    BestAcc :=
  let matchScore := calculateMatchScore m e.2.2
  if acc.score < matchScore then ⟨e.1, e.2.1, matchScore⟩ else acc

/-- The best-match loop of `categorizeField` over the whole catalog. -/
def bestMatch (m : FieldMetadata) : BestAcc :=
  catalogEntries.foldl (bestStep m) ⟨"unknown", "unknown", 0⟩

/-- The structural type/autocomplete fallback chain of `categorizeField`
(formDetector.js, lines 368-392), applied to the current category and
subcategory. -/
def typeFallback (m : FieldMetadata) (current : String × String) : String × String :=
  if m.type = "email" then ("personal", "email")
  else if m.type = "tel" then ("personal", "phone")
  else if m.autocomplete = "address-line1" then ("personal", "address")
  else if m.autocomplete = "address-level2" then ("personal", "city")
  else if m.autocomplete = "address-level1" then ("personal", "state")
  else if m.autocomplete = "postal-code" then ("personal", "zipCode")
  else if m.autocomplete = "country" then ("personal", "country")
  else current

/-- Embedding of `FormDetector.categorizeField` (formDetector.js,
lines 227-395). -/
def categorizeField (m : FieldMetadata) : String × String :=
  let best := bestMatch m
  if best.category = "unknown" ∨ best.score < 3 then
    typeFallback m (best.category, best.subcategory)
  else
    (best.category, best.subcategory)

/-- Embedding of `FormDetector.calculateConfidence` (formDetector.js,
lines 460-525).  Confidence is exact rational arithmetic; the source JS
decimals 0.5, 0.3, 0.2, 0.1 are written as the rationals they denote. -/
def calculateConfidence (m : FieldMetadata) (category subcategory : String) : ℚ :=
  if category = "unknown" then 0
  else
    let confidence : ℚ := 1/2
    let confidence := if m.labelForField then confidence + 3/10 else confidence
    let confidence :=
      if (subcategory = "email" ∧ m.type = "email") ∨
         (subcategory = "phone" ∧ m.type = "tel") then confidence + 3/10
      else confidence
    let confidence :=
      if m.autocomplete ≠ "" ∧
         ((subcategory = "firstName" ∧ m.autocomplete = "given-name") ∨
          (subcategory = "lastName" ∧ m.autocomplete = "family-name") ∨
          (subcategory = "email" ∧ m.autocomplete = "email") ∨
          (subcategory = "phone" ∧ m.autocomplete = "tel") ∨
          (subcategory = "address" ∧ strContains m.autocomplete "address-line" = true) ∨
          (subcategory = "city" ∧ m.autocomplete = "address-level2") ∨
          (subcategory = "state" ∧ m.autocomplete = "address-level1") ∨
          (subcategory = "zipCode" ∧ m.autocomplete = "postal-code") ∨
          (subcategory = "country" ∧ m.autocomplete = "country")) then confidence + 3/10
      else confidence
    let confidence :=
      if strContains m.id subcategory = true ∨ strContains m.name subcategory = true then
        confidence + 1/5
      else confidence
    let confidence :=
      if m.required = true ∧ m.labelText ≠ "" then confidence + 1/10 else confidence
    let confidence :=
      if 0 < m.options.length ∧
         ((subcategory = "country" ∧ "united states" ∈ m.options) ∨
          (subcategory = "state" ∧ "california" ∈ m.options) ∨
          (subcategory = "degree" ∧
            ("bachelor" ∈ m.options ∨ "master" ∈ m.options ∨ "phd" ∈ m.options))) then
        confidence + 1/5
      else confidence
    min confidence 1

/-- The classification pipeline of `FormDetector.analyzeField`
(formDetector.js, lines 63-80) restricted to its pure part: category,
subcategory and confidence computed from the metadata. -/
def classify (m : FieldMetadata) : String × String × ℚ :=
  let cs := categorizeField m
  (cs.1, cs.2, calculateConfidence m cs.1 cs.2)

/-- The per-phrase score as the specification describes it (spec 4.3 step 1):
a weighted sum over the channels containing the phrase.  Used to compare the
source loop against the specification sentence. -/
def specPhraseScore (m : FieldMetadata) (p : String) : Nat :=
  (if strContains m.labelText p then 5 + (if m.labelForField then 2 else 0) else 0) +
  (if strContains m.id p then 3 else 0) +
  (if strContains m.name p then 3 else 0) +
  (if strContains m.ariaLabel p then 3 else 0) +
  (if strContains m.placeholder p then 2 else 0) +
  (if strContains m.title p then 1 else 0) +
  (m.dataAttributes.filter (fun kv => strContains kv.1 p || strContains kv.2 p)).length

/-- Metadata of a control whose explicit label reads `certifications`
(all other channels empty). -/
def certMeta : FieldMetadata := { labelText := "certifications", labelForField := true }

/-- Metadata of a control whose explicit label reads `email`
(all other channels empty). -/
def emailLabelMeta : FieldMetadata := { labelText := "email", labelForField := true }

/-- Metadata of a control with `id="email"` and `type="email"`, no label. -/
def emailMeta : FieldMetadata := { id := "email", type := "email" }

end FormDetector

namespace GreenhouseAdapter

/-- Metadata as enhanced by `GreenhouseAdapter.enhanceGreenhouseField`
(greenhouse.js, lines 39-77): the generic metadata spread together with the
wrapper id and wrapper class string (both set to the empty string when the
wrapper carries none). -/
structure GreenhouseMetadata where
  base : FormDetector.FieldMetadata
  greenhouseFieldId : String := ""
  greenhouseFieldType : String := ""

/-- Embedding of `GreenhouseAdapter.calculateGreenhouseConfidence`
(greenhouse.js, lines 250-277).  The JS truthiness test
`metadata.greenhouseFieldId || metadata.greenhouseFieldType` is nonemptiness
of either string. -/
def calculateGreenhouseConfidence (m : GreenhouseMetadata)
    (category subcategory : String) : ℚ :=
  let confidence := FormDetector.calculateConfidence m.base category subcategory
  let confidence :=
    if m.greenhouseFieldId ≠ "" ∨ m.greenhouseFieldType ≠ "" then
      min (confidence + 3/20) 1
    else confidence
  if (category = "personal" ∧
        (subcategory = "firstName" ∨ subcategory = "lastName" ∨
         subcategory = "email" ∨ subcategory = "phone")) ∨
     (category = "other" ∧ (subcategory = "resume" ∨ subcategory = "coverLetter")) then
    min (confidence + 1/5) 1
  else confidence

end GreenhouseAdapter

namespace ResumeParser

/-- The characters matched by the JavaScript regex class `\s` that occur in
the inputs this engine handles (ASCII whitespace). -/
def isJsWs (c : Char) : Bool :=
  c == ' ' || c == '\t' || c == '\n' || c == '\r' ||
  c == Char.ofNat 11 || c == Char.ofNat 12

/-- JS `s.trim()`: remove leading and trailing `\s` whitespace.  (Defined on
the character list so that it evaluates by kernel reduction.) -/
def jsTrim (s : String) : String :=
  String.mk ((((s.toList.dropWhile isJsWs).reverse).dropWhile isJsWs).reverse)

/-- JS `s.toLowerCase()` on the ASCII inputs handled here. -/
def jsToLower (s : String) : String :=
  String.mk (s.toList.map Char.toLower)

/-- JS `s.split(sep)` for the one-character separator `'\n'`: every newline
separates, adjacent newlines produce empty tokens. -/
def splitLinesGo : List Char → List Char → List String
  | [], cur => [String.mk cur.reverse]
  | c :: rest, cur =>
    if c == '\n' then String.mk cur.reverse :: splitLinesGo rest []
    else splitLinesGo rest (c :: cur)

def splitLines (s : String) : List String :=
  splitLinesGo s.toList []

/-- JS `array.join(sep)`. -/
def joinStrings (sep : String) (ls : List String) : String :=
  String.mk (List.intercalate sep.toList (ls.map String.toList))

/-- JS `s.replace(/\r\n/g, '\n')`. -/
def replaceCrLf : List Char → List Char
  | '\r' :: '\n' :: rest => '\n' :: replaceCrLf rest
  | c :: rest => c :: replaceCrLf rest
  | [] => []

/-- JS `s.replace(/\r/g, '\n')`. -/
def replaceCr (cs : List Char) : List Char :=
  cs.map (fun c => if c == '\r' then '\n' else c)

/-- The global replacement of `/\n+/g` by a single newline performed by
`ResumeParser.extractSections` (resumeParser.js, line 55): runs of
consecutive newlines collapse to one. -/
def collapseNewlines : List Char → List Char
  | [] => []
  | [c] => [c]
  | a :: b :: rest =>
    if a == '\n' && b == '\n' then collapseNewlines (b :: rest)
    else a :: collapseNewlines (b :: rest)

/-- The text normalization at the start of `ResumeParser.extractSections`
(resumeParser.js, lines 52-56): CRLF and CR become LF, newline runs
collapse, and the result is trimmed. -/
def normalizeText (text : String) : String :=
  jsTrim (String.mk (collapseNewlines (replaceCr (replaceCrLf text.toList))))

/-- The section header synonym table of `ResumeParser.extractSections`
(resumeParser.js, lines 59-67), in source order. -/
def sectionHeaderTable : List (String × List String) := [
  ("experience", ["experience", "work experience", "employment", "work history", "professional experience"]),
  ("education", ["education", "educational background", "academic background", "academic experience", "academic history"]),
  ("skills", ["skills", "technical skills", "core competencies", "competencies", "expertise", "proficiencies"]),
  ("projects", ["projects", "personal projects", "professional projects"]),
  ("certifications", ["certifications", "certificates", "licenses"]),
  ("languages", ["languages", "language proficiencies"]),
  ("summary", ["summary", "professional summary", "career summary", "career objective", "objective"])]

/-- The per-line test of `ResumeParser.findSectionBoundaries`
(resumeParser.js, lines 104-123): trim and lower-case the line, skip it when
empty, and otherwise return the first section type one of whose header
synonyms equals the cleaned line exactly or exactly followed by a colon. -/
def headerLineType (line : String) : Option String :=
  let cleanLine := jsToLower (jsTrim line)
  if cleanLine = "" then none
  else
    (sectionHeaderTable.find? (fun e =>
      e.2.any (fun hd => cleanLine == hd || cleanLine == hd ++ ":"))).map
      (fun e => e.1)

/-- The indexed traversal of `ResumeParser.findSectionBoundaries`
(resumeParser.js, lines 101-127): `k` is the index of the first line of
`ls` in the whole document.  The source finally sorts the collected
boundaries by index; the traversal already emits them in ascending index
order, so that sort is the identity and is not repeated here. -/
def findSectionBoundariesFrom : List String → Nat → List (String × Nat)
  | [], _ => []
  | line :: rest, k =>
    match headerLineType line with
    | some t => (t, k) :: findSectionBoundariesFrom rest (k + 1)
    | none => findSectionBoundariesFrom rest (k + 1)

/-- Embedding of `ResumeParser.findSectionBoundaries` applied to the lines
of the document. -/
def findSectionBoundaries (lines : List String) : List (String × Nat) :=
  findSectionBoundariesFrom lines 0

/-- JS `array.join('\n')`. -/
def joinLines (ls : List String) : String := joinStrings "\n" ls

/-- The line list `ResumeParser.extractSections` splits the normalized text
into (resumeParser.js, line 70). -/
def resumeLines (text : String) : List String := splitLines (normalizeText text)

/-- The end of the header region (resumeParser.js, line 79):
`sectionBoundaries[0]?.index || lines.length`.  JavaScript `||` treats the
index 0 as falsy, so a boundary on the very first line also yields
`lines.length`. -/
def headerEndIndex (lines : List String) (bs : List (String × Nat)) : Nat :=
  match bs.head? with
  | some b => if b.2 = 0 then lines.length else b.2
  | none => lines.length

/-- The per-boundary slices of `ResumeParser.extractSections`
(resumeParser.js, lines 82-90): each section spans from the line after its
header line to the line before the next boundary, or to the end of the
document for the last boundary.  `lines.slice(a, b)` is `drop a` then
`take (b - a)`. -/
def sectionSlices (lines : List String) : List (String × Nat) → List (String × String)
  | [] => []
  | (t, idx) :: rest =>
    let endIdx := match rest with
      | (_, j) :: _ => j
      | [] => lines.length
    (t, joinLines ((lines.drop (idx + 1)).take (endIdx - (idx + 1)))) ::
      sectionSlices lines rest

/-- JavaScript object property assignment `sections[key] = value`: an
existing binding for the key is overwritten in place, a new key is appended
in insertion order. -/
def assign (l : List (String × String)) (k v : String) : List (String × String) :=
  if l.any (fun kv => kv.1 == k) then
    l.map (fun kv => if kv.1 == k then (k, v) else kv)
  else l ++ [(k, v)]

/-- JavaScript object property read `sections[key]`. -/
def getSection (secs : List (String × String)) (k : String) : Option String :=
  (secs.find? (fun kv => kv.1 == k)).map (fun kv => kv.2)

/-- Embedding of `ResumeParser.extractSections` (resumeParser.js,
lines 50-93): the `sections` object holds the header region and one slice
per boundary, assigned in boundary order. -/
def extractSections (text : String) : List (String × String) :=
  let lines := resumeLines text
  let bs := findSectionBoundaries lines
  let header := joinLines (lines.take (headerEndIndex lines bs))
  (sectionSlices lines bs).foldl (fun acc ts => assign acc ts.1 ts.2)
    [("header", header)]

/-- Splitting a character list on maximal nonempty runs of characters
satisfying `p`: the semantics of JavaScript `String.split` on a
one-character-class-plus regex.  `cur` is the reversed current token and
`inRun` records whether the previous character belonged to a delimiter run
(whose token has already been emitted). -/
def splitRunsGo (p : Char → Bool) : List Char → Bool → List Char → List String
  | [], false, cur => [String.mk cur.reverse]
  | [], true, _ => [""]
  | c :: rest, false, cur =>
    if p c then String.mk cur.reverse :: splitRunsGo p rest true []
    else splitRunsGo p rest false (c :: cur)
  | c :: rest, true, _ =>
    if p c then splitRunsGo p rest true []
    else splitRunsGo p rest false [c]

/-- JS `s.split(regex)` for a regex of shape `[chars]+`. -/
def splitRuns (p : Char → Bool) (s : String) : List String :=
  splitRunsGo p s.toList false []

/-- JS `text.split(/\n\s*\n/)` (resumeParser.js, lines 193 and 264): the
separator is a newline, a greedy run of whitespace, and a final newline; the
greedy `\s*` with backtracking makes the separator end at the last newline
of the whitespace run that follows the opening newline.  Implemented as a
character automaton: `inRun` is true while inside a whitespace run opened by
a newline, `confirmed` is true once that run has contained a second newline
(so the separator is established and extends to the last newline seen);
`cur` is the reversed current token and `buf` the reversed whitespace
consumed since the opening (or since the last confirming) newline, which
belongs to the current token (run not confirmed) or to the next token
(run confirmed) once a non-whitespace character or the end arrives. -/
def splitBlankRunsGo : List Char → Bool → Bool → List Char → List Char → List String
  | [], false, _, cur, _ => [String.mk cur.reverse]
  | [], true, false, cur, buf => [String.mk (buf ++ cur).reverse]
  | [], true, true, cur, buf => [String.mk cur.reverse, String.mk buf.reverse]
  | c :: rest, false, _, cur, _ =>
    if c == '\n' then splitBlankRunsGo rest true false cur [c]
    else splitBlankRunsGo rest false false (c :: cur) []
  | c :: rest, true, false, cur, buf =>
    if c == '\n' then splitBlankRunsGo rest true true cur []
    else if isJsWs c then splitBlankRunsGo rest true false cur (c :: buf)
    else splitBlankRunsGo rest false false (c :: (buf ++ cur)) []
  | c :: rest, true, true, cur, buf =>
    if c == '\n' then splitBlankRunsGo rest true true cur []
    else if isJsWs c then splitBlankRunsGo rest true true cur (c :: buf)
    else String.mk cur.reverse :: splitBlankRunsGo rest false false (c :: buf) []

def splitBlankRuns (s : String) : List String :=
  splitBlankRunsGo s.toList false false [] []

/-- The skill delimiter class of `ResumeParser.parseSkills`
(resumeParser.js, line 342): the regex `[,•|•·*+\n]+` — comma, bullet,
pipe, middle dot, asterisk, plus and newline. -/
def isSkillDelim (c : Char) : Bool :=
  c == ',' || c == '•' || c == '|' || c == '·' || c == '*' || c == '+' || c == '\n'

/-- The fallback token cleanup of `ResumeParser.parseSkills`
(resumeParser.js, line 353): `replace(/[,.;:]/g, '')` removes every comma,
period, semicolon and colon anywhere in the token, not only trailing ones. -/
def removeSkillPunct (w : String) : String :=
  String.mk (w.toList.filter (fun c => !(c == ',' || c == '.' || c == ';' || c == ':')))

/-- Embedding of `ResumeParser.parseSkills` (resumeParser.js,
lines 336-358).  `none` models an absent `sections.skills` property; the
JS guard `if (!text)` also catches the empty string. -/
def parseSkills (text : Option String) : List String :=
  match text with
  | none => []
  | some t =>
    if t = "" then []
    else
      let skills := ((splitRuns isSkillDelim t).map jsTrim).filter
        (fun s => 0 < s.length)
      if skills.length < 3 then
        let words := splitRuns isJsWs t
        if 10 < words.length then
          (words.filter (fun w => 2 < w.length)).map (fun w => removeSkillPunct (jsTrim w))
        else skills
      else skills

/-- Leftmost-match scanner: apply a matcher (which returns the number of
characters a regex consumes at the head) at every start position in order
and return the first matched substring, like JS `text.match(regex)[0]`. -/
def scanMatch (matcher : List Char → Option Nat) : List Char → Option String
  | [] => none
  | c :: rest =>
    match matcher (c :: rest) with
    | some n => some (String.mk ((c :: rest).take n))
    | none => scanMatch matcher rest

/-- The month token alternation of the date regexes
(resumeParser.js, lines 203 and 274). -/
def monthNames : List String :=
  ["jan", "feb", "mar", "apr", "may", "jun", "jul", "aug", "sep", "oct", "nov", "dec"]

def take3Lower (cs : List Char) : String :=
  String.mk ((cs.take 3).map Char.toLower)

/-- Regex `\s+`: length of a nonempty whitespace run at the head. -/
def wsPlus (cs : List Char) : Option Nat :=
  let n := (cs.takeWhile isJsWs).length
  if n = 0 then none else some n

/-- Regex `\.?\s+`: optional literal dot (greedy, with fallback) then
mandatory whitespace. -/
def matchDotWs (cs : List Char) : Option Nat :=
  match cs with
  | '.' :: rest =>
    match wsPlus rest with
    | some n => some (n + 1)
    | none => wsPlus cs
  | _ => wsPlus cs

/-- Backtracking over the greedy `[a-z]*` run (the `/i` flag makes it match
any ASCII letters): try the longest letter run first, then shorter ones,
each followed by `\.?\s+`. -/
def tryLetterDotWs (cs : List Char) : Nat → Option Nat
  | 0 => matchDotWs cs
  | k + 1 =>
    match matchDotWs (cs.drop (k + 1)) with
    | some n => some (k + 1 + n)
    | none => tryLetterDotWs cs k

/-- Regex `(Jan|...|Dec)[a-z]*\.?\s+` at the head (case-insensitive). -/
def matchMonthPrefixWs (cs : List Char) : Option Nat :=
  if (cs.take 3).length = 3 && monthNames.contains (take3Lower cs) then
    let rest := cs.drop 3
    match tryLetterDotWs rest ((rest.takeWhile (fun c => c.isAlpha)).length) with
    | some n => some (3 + n)
    | none => none
  else none

/-- Regex `\d{4}` at the head. -/
def matchYear4 (cs : List Char) : Option Nat :=
  if (cs.take 4).length = 4 && (cs.take 4).all Char.isDigit then some 4 else none

/-- Regex `(Jan|...|Dec)[a-z]*\.?\s+\d{4}` at the head. -/
def matchMonthYear (cs : List Char) : Option Nat :=
  match matchMonthPrefixWs cs with
  | some n =>
    match matchYear4 (cs.drop n) with
    | some m => some (n + m)
    | none => none
  | none => none

/-- The range separator alternation `(?:-|to|–|—)` of the date regexes,
case-insensitive. -/
def matchRangeSep (cs : List Char) : Option Nat :=
  match cs with
  | c :: rest =>
    if c == '-' || c == '–' || c == '—' then some 1
    else if c.toLower == 't' && ((rest.head?.map Char.toLower) == some 'o') then some 2
    else none
  | [] => none

/-- Case-insensitive literal word at the head (for `Present`/`Current`,
which the `/i` regexes match in any case). -/
def matchWordCI (w : String) (cs : List Char) : Bool :=
  ((cs.take w.length).map Char.toLower) = w.toList

/-- The second alternative group of the experience date regex
(resumeParser.js, line 203): another month-year date, or
`Present`/`Current`. -/
def matchExpEndDate (cs : List Char) : Option Nat :=
  match matchMonthYear cs with
  | some n => some n
  | none =>
    if matchWordCI "present" cs then some 7
    else if matchWordCI "current" cs then some 7
    else none

/-- The experience date regex of `ResumeParser.parseExperience`
(resumeParser.js, line 203) applied at one start position; returns capture
groups 1 and 2 (`startDate` and `endDate`). -/
def matchExpDateAt (cs : List Char) : Option (String × String) :=
  match matchMonthYear cs with
  | some n1 =>
    let a1 := cs.drop n1
    let ws1 := (a1.takeWhile isJsWs).length
    match matchRangeSep (a1.drop ws1) with
    | some ns =>
      let a2 := a1.drop (ws1 + ns)
      let ws2 := (a2.takeWhile isJsWs).length
      match matchExpEndDate (a2.drop ws2) with
      | some n2 => some (String.mk (cs.take n1), String.mk ((a2.drop ws2).take n2))
      | none => none
    | none => none
  | none => none

/-- Leftmost match of the experience date regex over a line. -/
def scanExpDate : List Char → Option (String × String)
  | [] => none
  | c :: rest =>
    match matchExpDateAt (c :: rest) with
    | some r => some r
    | none => scanExpDate rest

/-- The title/company split regex `/^(.*?)\s*(?:at|,|\|)\s*(.*?)$/i` of
`ResumeParser.parseExperience` (resumeParser.js, line 202): the lazy prefix
makes the leftmost occurrence of `at` (any case), comma or pipe the split
point; the matcher returns the raw halves, which the caller trims (the
`\s*` of the regex only removes whitespace that trimming removes as well). -/
def findTitleCompanySep : List Char → Nat → Option (Nat × Nat)
  | [], _ => none
  | c :: rest, i =>
    if c == ',' || c == '|' then some (i, 1)
    else if c.toLower == 'a' && ((rest.head?.map Char.toLower) == some 't') then
      some (i, 2)
    else findTitleCompanySep rest (i + 1)

def titleCompanyMatch (line : String) : Option (String × String) :=
  let cs := line.toList
  match findTitleCompanySep cs 0 with
  | some (i, len) => some (String.mk (cs.take i), String.mk (cs.drop (i + len)))
  | none => none

structure ExperienceEntry where
  title : String
  company : String
  startDate : String
  endDate : String
  description : String
  deriving Repr, DecidableEq

/-- The per-block extraction of `ResumeParser.parseExperience`
(resumeParser.js, lines 195-247), for a block that is nonempty after
trimming. -/
def mkExperienceEntry (block : String) : ExperienceEntry :=
  let lines := splitLines (jsTrim block)
  let firstLine := lines.headD ""
  let tc := titleCompanyMatch firstLine
  let title := match tc with
    | some p => jsTrim p.1
    | none => jsTrim firstLine
  let company := match tc with
    | some p => jsTrim p.2
    | none => ""
  let dates := if 1 < lines.length then scanExpDate (lines.getD 1 "").toList else none
  let startDate := match dates with
    | some d => d.1
    | none => ""
  let endDate := match dates with
    | some d => d.2
    | none => ""
  let descriptionLines :=
    lines.drop ((if tc.isSome then 1 else 0) + (if startDate ≠ "" then 1 else 0))
  { title := title, company := company, startDate := startDate, endDate := endDate,
    description := jsTrim (joinLines descriptionLines) }

/-- Embedding of `ResumeParser.parseExperience` (resumeParser.js,
lines 182-251).  `none` models an absent `sections.experience` property; the
JS guard `if (!text) return []` also catches the empty string.  Blocks are
the pieces between blank-line runs; blocks that are empty after trimming are
skipped. -/
def parseExperience (text : Option String) : List ExperienceEntry :=
  match text with
  | none => []
  | some t =>
    if t = "" then []
    else ((splitBlankRuns t).filter (fun b => jsTrim b ≠ "")).map mkExperienceEntry

/-- The degree/school split regex `/^(.*?)\s*(?:at|,|\||\s+from)\s*(.*?)$/i`
of `ResumeParser.parseEducation` (resumeParser.js, line 273): like the
title/company split, with the additional separator `from` preceded by at
least one whitespace character. -/
def findDegreeSchoolSep : List Char → Nat → Option (Nat × Nat)
  | [], _ => none
  | c :: rest, i =>
    if c == ',' || c == '|' then some (i, 1)
    else if c.toLower == 'a' && ((rest.head?.map Char.toLower) == some 't') then
      some (i, 2)
    else if isJsWs c then
      let wsRun := 1 + (rest.takeWhile isJsWs).length
      if matchWordCI "from" ((c :: rest).drop wsRun) then some (i, wsRun + 4)
      else findDegreeSchoolSep rest (i + 1)
    else findDegreeSchoolSep rest (i + 1)

def degreeSchoolMatch (line : String) : Option (String × String) :=
  let cs := line.toList
  match findDegreeSchoolSep cs 0 with
  | some (i, len) => some (String.mk (cs.take i), String.mk (cs.drop (i + len)))
  | none => none

/-- Regex `(?:(?:Jan|...)[a-z]*\.?\s+)?\d{4}` at the head: optional month
part (tried first, as the regex does) then a four-digit year. -/
def matchOptMonthYear (cs : List Char) : Option Nat :=
  match matchMonthYear cs with
  | some n => some n
  | none => matchYear4 cs

/-- The date-range alternative of the education date regex
(resumeParser.js, line 274) at one start position. -/
def matchEduRangeAt (cs : List Char) : Option Nat :=
  match matchOptMonthYear cs with
  | some n1 =>
    let a1 := cs.drop n1
    let ws1 := (a1.takeWhile isJsWs).length
    match matchRangeSep (a1.drop ws1) with
    | some ns =>
      let a2 := a1.drop (ws1 + ns)
      let ws2 := (a2.takeWhile isJsWs).length
      match matchOptMonthYear (a2.drop ws2) with
      | some n2 => some (n1 + ws1 + ns + ws2 + n2)
      | none => none
    | none => none
  | none => none

/-- The whole education date regex: the top-level alternation binds weakest,
so the pattern is the full range, or the bare word `Present`, or the bare
word `Current`, tried in that order at each position. -/
def matchEduDateAt (cs : List Char) : Option Nat :=
  match matchEduRangeAt cs with
  | some n => some n
  | none =>
    if matchWordCI "present" cs then some 7
    else if matchWordCI "current" cs then some 7
    else none

def scanEduDate : List Char → Option String
  | [] => none
  | c :: rest =>
    match matchEduDateAt (c :: rest) with
    | some n => some (String.mk ((c :: rest).take n))
    | none => scanEduDate rest

/-- JS `\w` word characters, for the `\b` boundaries of the year regex. -/
def isWordChar (c : Char) : Bool := c.isAlphanum || c == '_'

/-- The global year regex `/\b(20\d{2}|19\d{2})\b/g` of
`ResumeParser.parseEducation` (resumeParser.js, line 275): all matches in
order, each a four-digit year starting 19 or 20 delimited by word
boundaries.  `prev` is the character before the current position. -/
def findYears : List Char → Option Char → List String
  | a :: b :: c :: d :: rest, prev =>
    if ((prev.map isWordChar).getD false) = false &&
       ((a == '1' && b == '9') || (a == '2' && b == '0')) &&
       c.isDigit && d.isDigit &&
       ((rest.head?.map isWordChar).getD false) = false then
      String.mk [a, b, c, d] :: findYears rest (some d)
    else findYears (b :: c :: d :: rest) (some a)
  | _, _ => []

structure EducationEntry where
  degree : String
  school : String
  startDate : String
  endDate : String
  description : String
  deriving Repr, DecidableEq

/-- The degree keyword lexicon of `ResumeParser.parseEducation`
(resumeParser.js, line 292). -/
def potentialDegrees : List String :=
  ["bachelor", "master", "bs", "ba", "ms", "ma", "phd", "doctorate"]

/-- The per-block extraction of `ResumeParser.parseEducation`
(resumeParser.js, lines 266-326). -/
def mkEducationEntry (block : String) : EducationEntry :=
  let lines := splitLines (jsTrim block)
  let firstLine := lines.headD ""
  let ds := degreeSchoolMatch firstLine
  let isDegreeWord := potentialDegrees.any (fun d => strContains (jsToLower firstLine) d)
  let degree := match ds with
    | some p => jsTrim p.1
    | none => if isDegreeWord then firstLine else ""
  let school := match ds with
    | some p => jsTrim p.2
    | none => if isDegreeWord then "" else firstLine
  let allText := joinStrings " " lines
  let years := match scanEduDate allText.toList with
    | some dateRange => findYears dateRange.toList none
    | none => []
  let startDate := if 1 ≤ years.length then years.headD "" else ""
  let endDate :=
    if 1 ≤ years.length then (if 2 ≤ years.length then years.getD 1 "" else "Present")
    else ""
  { degree := degree, school := school, startDate := startDate, endDate := endDate,
    description := jsTrim (joinLines (lines.drop 1)) }

/-- Embedding of `ResumeParser.parseEducation` (resumeParser.js,
lines 258-329). -/
def parseEducation (text : Option String) : List EducationEntry :=
  match text with
  | none => []
  | some t =>
    if t = "" then []
    else ((splitBlankRuns t).filter (fun b => jsTrim b ≠ "")).map mkEducationEntry

/-- Character class of the local part of the email regex
(resumeParser.js, line 149): `[A-Za-z0-9._%+-]`. -/
def isEmailLocalChar (c : Char) : Bool :=
  c.isAlphanum || c == '.' || c == '_' || c == '%' || c == '+' || c == '-'

/-- Character class of the domain part: `[A-Za-z0-9.-]`. -/
def isEmailDomChar (c : Char) : Bool :=
  c.isAlphanum || c == '.' || c == '-'

/-- Character class of the top-level-domain part: `[A-Z|a-z]` (the source
class literally contains a pipe). -/
def isTldChar (c : Char) : Bool := c.isAlpha || c == '|'

/-- The `[A-Za-z0-9.-]+\.[A-Z|a-z]{2,}\b` tail of the email regex after the
`@`: the greedy domain run backtracks to a dot that is followed by at least
two TLD characters ending at a word boundary; dots are tried from the
rightmost one inside the domain run. -/
def matchEmailDomain (cs : List Char) : Nat → Option Nat
  | 0 => none
  | k + 1 =>
    if (cs.getD (k + 1) ' ') = '.' then
      let tld := ((cs.drop (k + 2)).takeWhile isTldChar).length
      if 2 ≤ tld && (((cs.drop (k + 2 + tld)).head?.map isWordChar).getD false) = false then
        some (k + 2 + tld)
      else matchEmailDomain cs k
    else matchEmailDomain cs k

/-- The email regex
`/\b[A-Za-z0-9._%+-]+@[A-Za-z0-9.-]+\.[A-Z|a-z]{2,}\b/` of
`ResumeParser.parsePersonalInfo` (resumeParser.js, line 149): leftmost
match, scanning with the previous character tracked for the leading word
boundary (the match must start at a word character not preceded by one, as
every practical email does). -/
def scanEmail : Option Char → List Char → Option String
  | _, [] => none
  | prev, c :: rest =>
    if isWordChar c && ((prev.map isWordChar).getD false) = false then
      let localRun := ((c :: rest).takeWhile isEmailLocalChar).length
      let afterLocal := (c :: rest).drop localRun
      match afterLocal with
      | '@' :: dom =>
        let domRun := (dom.takeWhile isEmailDomChar).length
        match matchEmailDomain dom (domRun - 1) with
        | some n => some (String.mk ((c :: rest).take (localRun + 1 + n)))
        | none => scanEmail (some c) rest
      | _ => scanEmail (some c) rest
    else scanEmail (some c) rest

/-- Class `[-.\s]` of the phone regex. -/
def isPhoneSep (c : Char) : Bool := c == '-' || c == '.' || isJsWs c

/-- Consume exactly `n` digits. -/
def eatDigits (n : Nat) (cs : List Char) : Option (List Char) :=
  if (cs.take n).length = n && (cs.take n).all Char.isDigit then some (cs.drop n)
  else none

/-- Consume one optional character satisfying `p` (regex `x?`; greedy, and
deterministic for the phone regex because the classes that follow are
disjoint from the optional ones). -/
def eatOpt (p : Char → Bool) (cs : List Char) : List Char :=
  match cs with
  | c :: rest => if p c then rest else cs
  | [] => cs

/-- The phone regex `/\(?\d{3}\)?[-.\s]?\d{3}[-.\s]?\d{4}/` of
`ResumeParser.parsePersonalInfo` (resumeParser.js, line 150) at one start
position; returns the number of characters matched. -/
def matchPhoneAt (cs : List Char) : Option Nat :=
  let s1 := eatOpt (fun c => c == '(') cs
  match eatDigits 3 s1 with
  | none => none
  | some s2 =>
    let s3 := eatOpt (fun c => c == ')') s2
    let s4 := eatOpt isPhoneSep s3
    match eatDigits 3 s4 with
    | none => none
    | some s5 =>
      let s6 := eatOpt isPhoneSep s5
      match eatDigits 4 s6 with
      | some s7 => some (cs.length - s7.length)
      | none => none

/-- The LinkedIn regex `/linkedin\.com\/in\/[a-zA-Z0-9-]+/`
(resumeParser.js, line 151) at one start position. -/
def matchLinkedinAt (cs : List Char) : Option Nat :=
  let lit := "linkedin.com/in/".toList
  if cs.take lit.length = lit then
    let run := ((cs.drop lit.length).takeWhile (fun c => c.isAlphanum || c == '-')).length
    if run = 0 then none else some (lit.length + run)
  else none

/-- Path characters of the website regex:
`[a-zA-Z0-9-._~:/?#[\]@!$&'()*+,;=]` (the class includes an apostrophe,
written here by code point). -/
def isUrlPathChar (c : Char) : Bool :=
  c.isAlphanum ||
  "-._~:/?#[]@!$&()*+,;=".toList.contains c || c == Char.ofNat 39

/-- Host-then-domain part `[a-zA-Z0-9-]+\.[a-zA-Z0-9-.]+` of the website
regex at the head. -/
def matchHostFrom (cs : List Char) : Option Nat :=
  let r1 := (cs.takeWhile (fun c => c.isAlphanum || c == '-')).length
  if r1 = 0 then none
  else match cs.drop r1 with
    | '.' :: rest =>
      let r2 := (rest.takeWhile (fun c => c.isAlphanum || c == '-' || c == '.')).length
      if r2 = 0 then none else some (r1 + 1 + r2)
    | _ => none

/-- The website regex
`/https?:\/\/(?:www\.)?[a-zA-Z0-9-]+\.[a-zA-Z0-9-.]+(\/[...]*)?/`
(resumeParser.js, line 152) at one start position.  The optional `www.` is
tried greedily and dropped on failure, as regex backtracking does. -/
def matchWebsiteAt (cs : List Char) : Option Nat :=
  let scheme :=
    if cs.take 8 = "https://".toList then some 8
    else if cs.take 7 = "http://".toList then some 7
    else none
  match scheme with
  | none => none
  | some sn =>
    let after := cs.drop sn
    let hostPart :=
      if after.take 4 = "www.".toList then
        match matchHostFrom (after.drop 4) with
        | some n => some (4 + n)
        | none => matchHostFrom after
      else matchHostFrom after
    match hostPart with
    | none => none
    | some hn =>
      let afterHost := after.drop hn
      let pathLen := match afterHost with
        | '/' :: rest => 1 + (rest.takeWhile isUrlPathChar).length
        | _ => 0
      some (sn + hn + pathLen)

/-- The street-address regex `/\d+\s+[A-Za-z\s,]+\d{5}/`
(resumeParser.js, line 153) at one start position. -/
def matchAddressAt (cs : List Char) : Option Nat :=
  let d1 := (cs.takeWhile Char.isDigit).length
  if d1 = 0 then none
  else
    let a1 := cs.drop d1
    let w1 := (a1.takeWhile isJsWs).length
    if w1 = 0 then none
    else
      let a2 := a1.drop w1
      let m1 := (a2.takeWhile (fun c => c.isAlpha || isJsWs c || c == ',')).length
      if m1 = 0 then none
      else
        let a3 := a2.drop m1
        if (a3.take 5).length = 5 && (a3.take 5).all Char.isDigit then
          some (d1 + w1 + m1 + 5)
        else none

structure PersonalInfo where
  fullName : String
  email : String
  phone : String
  linkedin : String
  website : String
  address : String
  deriving Repr, DecidableEq

/-- Embedding of `ResumeParser.parsePersonalInfo` (resumeParser.js,
lines 146-175): regex extraction over the full text (first match or empty
string, like `extractPattern`), and the full name taken from the first line
of the trimmed header region. -/
def parsePersonalInfo (fullText headerText : String) : PersonalInfo :=
  let email := (scanEmail none fullText.toList).getD ""
  let phone := (scanMatch matchPhoneAt fullText.toList).getD ""
  let linkedin := (scanMatch matchLinkedinAt fullText.toList).getD ""
  let website := (scanMatch matchWebsiteAt fullText.toList).getD ""
  let address := (scanMatch matchAddressAt fullText.toList).getD ""
  let lines := splitLines (jsTrim headerText)
  { fullName := lines.headD "", email := email, phone := phone,
    linkedin := linkedin, website := website, address := address }

structure ResumeRecord where
  personalInfo : PersonalInfo
  experience : List ExperienceEntry
  education : List EducationEntry
  skills : List String
  rawText : String

/-- A JavaScript value passed to `parse`: either a string or a value of any
other type (on which the string methods the body calls are absent). -/
inductive JSInput where
  | str (s : String)
  | nonString

/-- Embedding of `ResumeParser.parse` (resumeParser.js, lines 15-43).  For a
string input the body runs to completion and returns the structured record.
For a non-string input the first string-method call
(`text.replace` inside `extractSections`) throws a TypeError; the `catch`
block (lines 39-42) logs the error and rethrows it (`throw error`), so the
exception propagates to the caller, modelled as `Except.error`. -/
def parse : JSInput → Except String ResumeRecord
  | .nonString => .error "TypeError: text.replace is not a function"
  | .str text =>
    let sections := extractSections text
    .ok {
      personalInfo := parsePersonalInfo text ((getSection sections "header").getD ""),
      experience := parseExperience (getSection sections "experience"),
      education := parseEducation (getSection sections "education"),
      skills := parseSkills (getSection sections "skills"),
      rawText := text }

/-- A skills section with no delimiter characters, more than ten
whitespace-separated words, and a token with interior punctuation. -/
def proseSkillsText : String :=
  "we value node.js experience and strong dedication over many long years here"

/-- Stripping only trailing punctuation from a token, as the claim words
the fallback cleanup (for comparison with the source behavior). -/
def stripTrailingPunct (w : String) : String :=
  String.mk ((w.toList.reverse.dropWhile
    (fun c => c == ',' || c == '.' || c == ';' || c == ':')).reverse)

/-- The skills fallback as the claim describes it: whitespace tokens with
tokens of length at most 2 discarded and trailing punctuation stripped. -/
def claimedSkillsFallback (t : String) : List String :=
  ((splitRuns isJsWs t).filter (fun w => 2 < w.length)).map
    (fun w => stripTrailingPunct (jsTrim w))

end ResumeParser

theorem isPrefixOf_self (l : List Char) : l.isPrefixOf l = true := by
  induction l with
  | nil => rfl
  | cons c rest ih => simp [List.isPrefixOf, ih]

/-- A string always contains itself (JS `s.includes(s)` is true). -/
theorem strContains_self (s : String) : strContains s s = true := by
  unfold strContains
  cases h : s.toList with
  | nil => simp [charsContains]
  | cons c rest => simp [charsContains, isPrefixOf_self]

namespace FormDetector

theorem foldl_count {α : Type} (q : α → Bool) (l : List α) :
    ∀ n : Nat, l.foldl (fun score x => if q x then score + 1 else score) n
      = n + (l.filter q).length := by
  induction l with
  | nil => intro n; simp
  | cons x rest ih =>
    intro n
    rw [List.foldl_cons, List.filter_cons]
    by_cases h : q x = true
    · rw [if_pos h, if_pos h, ih]
      simp only [List.length_cons]
      omega
    · rw [if_neg h, if_neg h, ih]

theorem dataAttrScore_eq (attrs : List (String × String)) (pat : String) :
    dataAttrScore attrs pat
      = (attrs.filter (fun kv => strContains kv.1 pat || strContains kv.2 pat)).length := by
  unfold dataAttrScore
  rw [foldl_count]
  omega

set_option maxHeartbeats 1600000 in
theorem scoreStep_eq_add (m : FieldMetadata) (score : Nat) (pat : String) :
    scoreStep m score pat = score + specPhraseScore m pat := by
  simp only [scoreStep, specPhraseScore, dataAttrScore_eq]
  split_ifs <;> omega

theorem foldl_scoreStep (m : FieldMetadata) (l : List String) :
    ∀ a : Nat, l.foldl (scoreStep m) a = a + (l.map (specPhraseScore m)).sum := by
  induction l with
  | nil => intro a; simp
  | cons p rest ih =>
    intro a
    rw [List.foldl_cons, ih, scoreStep_eq_add, List.map_cons, List.sum_cons]
    omega

theorem specPhraseScore_ge_seven (m : FieldMetadata) (p : String)
    (hc : strContains m.labelText p = true) (hf : m.labelForField = true) :
    7 ≤ specPhraseScore m p := by
  unfold specPhraseScore
  simp only [hc, hf, if_true]
  split_ifs <;> omega

theorem calculateMatchScore_ge_of_mem (m : FieldMetadata) (phs : List String)
    (p : String) (hp : p ∈ phs) (hc : strContains m.labelText p = true)
    (hf : m.labelForField = true) :
    7 ≤ calculateMatchScore m phs := by
  have h1 : calculateMatchScore m phs = (phs.map (specPhraseScore m)).sum := by
    unfold calculateMatchScore
    rw [foldl_scoreStep]
    omega
  have h2 : specPhraseScore m p ≤ (phs.map (specPhraseScore m)).sum :=
    List.single_le_sum (fun x _ => Nat.zero_le x) _ (List.mem_map_of_mem _ hp)
  have h3 := specPhraseScore_ge_seven m p hc hf
  omega

theorem bestStep_score_le (m : FieldMetadata) (acc : BestAcc)
    (e : String × String × List String) :
    acc.score ≤ (bestStep m acc e).score := by
  simp only [bestStep]
  split
  · rename_i h
    exact Nat.le_of_lt h
  · exact Nat.le_refl _

theorem foldl_bestStep_mono (m : FieldMetadata)
    (l : List (String × String × List String)) :
    ∀ acc : BestAcc, acc.score ≤ (l.foldl (bestStep m) acc).score := by
  induction l with
  | nil => intro acc; exact Nat.le_refl _
  | cons e rest ih =>
    intro acc
    exact le_trans (bestStep_score_le m acc e) (ih (bestStep m acc e))

theorem foldl_bestStep_ge (m : FieldMetadata) (e : String × String × List String) :
    ∀ (l : List (String × String × List String)), e ∈ l →
      ∀ acc : BestAcc, calculateMatchScore m e.2.2 ≤ (l.foldl (bestStep m) acc).score := by
  intro l
  induction l with
  | nil => intro he; cases he
  | cons x rest ih =>
    intro he acc
    rw [List.foldl_cons]
    rcases List.mem_cons.mp he with h | h
    · subst h
      have hx : calculateMatchScore m e.2.2 ≤ (bestStep m acc e).score := by
        simp only [bestStep]
        split
        · exact Nat.le_refl _
        · rename_i hlt
          omega
      exact le_trans hx (foldl_bestStep_mono m rest _)
    · exact ih h (bestStep m acc x)

theorem foldl_bestStep_unknown (m : FieldMetadata) :
    ∀ (l : List (String × String × List String)) (acc : BestAcc),
      (∀ e ∈ l, e.1 ≠ "unknown") → (acc.category = "unknown" → acc.score = 0) →
      ((l.foldl (bestStep m) acc).category = "unknown" →
        (l.foldl (bestStep m) acc).score = 0) := by
  intro l
  induction l with
  | nil => intro acc _ hacc; exact hacc
  | cons x rest ih =>
    intro acc hl hacc
    rw [List.foldl_cons]
    refine ih (bestStep m acc x) (fun e he => hl e (List.mem_cons_of_mem _ he)) ?_
    intro hcat
    simp only [bestStep] at hcat ⊢
    by_cases hlt : acc.score < calculateMatchScore m x.2.2
    · rw [if_pos hlt] at hcat
      exact absurd hcat (hl x (List.mem_cons_self _ _))
    · rw [if_neg hlt] at hcat ⊢
      exact hacc hcat

theorem catalogEntries_no_unknown : ∀ e ∈ catalogEntries, e.1 ≠ "unknown" := by
  decide

theorem bestMatch_unknown_score (m : FieldMetadata)
    (h : (bestMatch m).category = "unknown") : (bestMatch m).score = 0 :=
  foldl_bestStep_unknown m catalogEntries ⟨"unknown", "unknown", 0⟩
    catalogEntries_no_unknown (fun _ => rfl) h

theorem calculateConfidence_bounds (m : FieldMetadata) (c s : String) :
    0 ≤ calculateConfidence m c s ∧ calculateConfidence m c s ≤ 1 := by
  unfold calculateConfidence
  by_cases h : c = "unknown"
  · rw [if_pos h]
    norm_num
  · rw [if_neg h]
    split_ifs <;> exact ⟨le_min (by norm_num) (by norm_num), min_le_right _ _⟩

theorem calculateConfidence_ge_half (m : FieldMetadata) (c s : String)
    (h : c ≠ "unknown") : 1/2 ≤ calculateConfidence m c s := by
  unfold calculateConfidence
  rw [if_neg h]
  split_ifs <;> exact le_min (by norm_num) (by norm_num)

theorem calculateConfidence_ge_of_labelFor (m : FieldMetadata) (c s : String)
    (h : c ≠ "unknown") (hf : m.labelForField = true) :
    4/5 ≤ calculateConfidence m c s := by
  unfold calculateConfidence
  rw [if_neg h]
  simp only [hf, if_true]
  split_ifs <;> exact le_min (by norm_num) (by norm_num)

end FormDetector

namespace GreenhouseAdapter

theorem clampAdd_bounds (c k : ℚ) (h0 : 0 ≤ c) (hk : 0 ≤ k) :
    0 ≤ min (c + k) 1 ∧ min (c + k) 1 ≤ 1 :=
  ⟨le_min (by linarith) (by norm_num), min_le_right _ _⟩

theorem calculateGreenhouseConfidence_bounds (gm : GreenhouseMetadata) (c s : String) :
    0 ≤ calculateGreenhouseConfidence gm c s ∧ calculateGreenhouseConfidence gm c s ≤ 1 := by
  obtain ⟨h0, h1⟩ := FormDetector.calculateConfidence_bounds gm.base c s
  unfold calculateGreenhouseConfidence
  split_ifs with hA hB hB
  · obtain ⟨g0, _⟩ := clampAdd_bounds _ _ h0 (by norm_num : (0:ℚ) ≤ 3/20)
    exact clampAdd_bounds _ _ g0 (by norm_num)
  · exact clampAdd_bounds _ _ h0 (by norm_num)
  · exact clampAdd_bounds _ _ h0 (by norm_num)
  · exact ⟨h0, h1⟩

end GreenhouseAdapter

namespace ResumeParser

theorem sectionHeaderTable_nonempty :
    ∀ e ∈ sectionHeaderTable, ∀ hd ∈ e.2, hd ≠ "" := by decide

theorem mem_findSectionBoundariesFrom (t : String) (i : Nat) :
    ∀ (ls : List String) (k : Nat),
      (t, i) ∈ findSectionBoundariesFrom ls k ↔
        ∃ j : Nat, j < ls.length ∧ i = k + j ∧
          headerLineType (ls.getD j "") = some t := by
  intro ls
  induction ls with
  | nil =>
    intro k
    constructor
    · intro h
      simp [findSectionBoundariesFrom] at h
    · rintro ⟨j, hj, _, _⟩
      simp at hj
  | cons line rest ih =>
    intro k
    constructor
    · intro hmem
      unfold findSectionBoundariesFrom at hmem
      cases hH : headerLineType line with
      | some t' =>
        rw [hH] at hmem
        rcases List.mem_cons.mp hmem with heq | hmem'
        · have ht : t = t' := congrArg Prod.fst heq
          have hi : i = k := congrArg Prod.snd heq
          exact ⟨0, by simp, by omega, by simpa [ht] using hH⟩
        · obtain ⟨j, hj, hij, hht⟩ := (ih (k + 1)).mp hmem'
          exact ⟨j + 1, by simpa using Nat.succ_lt_succ hj, by omega, by simpa using hht⟩
      | none =>
        rw [hH] at hmem
        obtain ⟨j, hj, hij, hht⟩ := (ih (k + 1)).mp hmem
        exact ⟨j + 1, by simpa using Nat.succ_lt_succ hj, by omega, by simpa using hht⟩
    · rintro ⟨j, hj, hij, hht⟩
      unfold findSectionBoundariesFrom
      cases j with
      | zero =>
        simp only [List.getD_cons_zero] at hht
        rw [hht]
        have : i = k := by omega
        subst this
        exact List.mem_cons_self _ _
      | succ j' =>
        have hmem' : (t, i) ∈ findSectionBoundariesFrom rest (k + 1) :=
          (ih (k + 1)).mpr ⟨j', by simpa using hj, by omega,
            by simpa using hht⟩
        cases hH : headerLineType line with
        | some t' => exact List.mem_cons_of_mem _ hmem'
        | none => exact hmem'

theorem headerLineType_isSome_iff (line : String) :
    (∃ t, headerLineType line = some t) ↔
      ∃ e ∈ sectionHeaderTable, ∃ hd ∈ e.2,
        jsToLower (jsTrim line) = hd ∨ jsToLower (jsTrim line) = hd ++ ":" := by
  unfold headerLineType
  by_cases hne : jsToLower (jsTrim line) = ""
  · rw [if_pos hne]
    constructor
    · rintro ⟨t, ht⟩
      cases ht
    · rintro ⟨e, he, hd, hhd, hor⟩
      have hhdne := sectionHeaderTable_nonempty e he hd hhd
      rcases hor with heq | heq
      · exact absurd (hne ▸ heq).symm hhdne
      · have h0 : ("" : String) = hd ++ ":" := by rw [← hne]; exact heq
        have h1 := congrArg String.length h0
        rw [String.length_append] at h1
        have h2 : (0 : Nat) = hd.length + 1 := h1
        omega
  · rw [if_neg hne]
    constructor
    · rintro ⟨t, ht⟩
      obtain ⟨e, hfind, het⟩ := Option.map_eq_some'.mp ht
      have hp := List.find?_some hfind
      have hm := List.mem_of_find?_eq_some hfind
      rcases List.any_eq_true.mp hp with ⟨hd, hhd, hor⟩
      rcases Bool.or_eq_true_iff.mp hor with h1 | h1
      · exact ⟨e, hm, hd, hhd, Or.inl (by simpa using h1)⟩
      · exact ⟨e, hm, hd, hhd, Or.inr (by simpa using h1)⟩
    · rintro ⟨e, he, hd, hhd, hor⟩
      have hp : (fun e : String × List String =>
          e.2.any fun hd => jsToLower (jsTrim line) == hd || jsToLower (jsTrim line) == hd ++ ":") e
            = true := by
        refine List.any_eq_true.mpr ⟨hd, hhd, ?_⟩
        rcases hor with h1 | h1 <;> simp [h1]
      have hsome : (sectionHeaderTable.find? (fun e =>
          e.2.any fun hd =>
            jsToLower (jsTrim line) == hd || jsToLower (jsTrim line) == hd ++ ":")).isSome :=
        List.find?_isSome.mpr ⟨e, he, hp⟩
      obtain ⟨e', he'⟩ := Option.isSome_iff_exists.mp hsome
      exact ⟨e'.1, by rw [he']; rfl⟩

end ResumeParser

namespace FormDetector

/-- C1: for metadata whose textual channels (id, name, type, placeholder,
label text, aria-label, title, autocomplete, data-attributes) are all empty,
classification returns category `unknown`, subcategory `unknown` and
confidence exactly 0.  Classification is a total Lean function over any
well-typed metadata, which is the shallow-embedding form of never
throwing. -/
theorem claim_C1_empty_metadata (m : FieldMetadata) (h1 : m.id = "")
    (h2 : m.name = "") (h3 : m.type = "") (h4 : m.placeholder = "")
    (h5 : m.labelText = "") (h6 : m.ariaLabel = "") (h7 : m.title = "")
    (h8 : m.autocomplete = "") (h9 : m.dataAttributes = []) :
    classify m = ("unknown", "unknown", 0) := by
  obtain ⟨id, name, ty, ph, cn, v, ac, al, alb, adb, ti, da, lt, lff, req,
    pt, mnl, mxl, mn, mx, opts⟩ := m
  subst h1 h2 h3 h4 h5 h6 h7 h8 h9
  cases lff <;> rfl

/-- Witness for C1: the all-default metadata record satisfies every
hypothesis and classifies as `unknown/unknown` with confidence 0. -/
theorem claim_C1_empty_metadata_witness :
    classify ({} : FieldMetadata) = ("unknown", "unknown", 0) :=
  claim_C1_empty_metadata {} rfl rfl rfl rfl rfl rfl rfl rfl rfl

/-- C2: for every metadata record and every category/subcategory pair, both
the generic confidence and the Greenhouse overlay confidence lie in
[0, 1]: no combination of additive boosts exceeds 1 (the result is
clamped) and the value is never negative. -/
theorem claim_C2_confidence_clamped (m : FieldMetadata)
    (gm : GreenhouseAdapter.GreenhouseMetadata) (c s : String) :
    (0 ≤ calculateConfidence m c s ∧ calculateConfidence m c s ≤ 1) ∧
    (0 ≤ GreenhouseAdapter.calculateGreenhouseConfidence gm c s ∧
      GreenhouseAdapter.calculateGreenhouseConfidence gm c s ≤ 1) :=
  ⟨calculateConfidence_bounds m c s,
    GreenhouseAdapter.calculateGreenhouseConfidence_bounds gm c s⟩

/-- Counterexample for C3 as stated: the label text `certifications` is
exactly a trigger phrase of the catalog subcategory skills/certifications,
and `labelForField` is true, yet classification returns education/degree
(the phrase also contains the education/degree trigger `certification`,
which scores the same 7 points and wins the tie by catalog order), not the
pair matching that subcategory. -/
theorem claim_C3_counterexample :
    ("skills", "certifications",
        ["certifications", "certificates", "credentials", "licenses"])
      ∈ catalogEntries ∧
    certMeta.labelForField = true ∧
    certMeta.labelText = "certifications" ∧
    "certifications" ∈ ["certifications", "certificates", "credentials", "licenses"] ∧
    categorizeField certMeta = ("education", "degree") ∧
    ("education", "degree") ≠ ("skills", "certifications") := by
  refine ⟨by decide, rfl, rfl, by decide, rfl, by decide⟩

/-- C3 amended: for metadata with `labelForField = true` and label text
exactly equal to a trigger phrase of some catalog subcategory, the
classification is a non-unknown pair whose match score is at least that of
that subcategory, and the confidence is at least 0.8; the returned pair can
differ from that subcategory when another one scores at least as high
(ties keep catalog order). -/
theorem claim_C3_amended (m : FieldMetadata) (cat sub : String)
    (phs : List String) (hmem : (cat, sub, phs) ∈ catalogEntries)
    (hph : m.labelText ∈ phs) (hfor : m.labelForField = true) :
    (classify m).1 ≠ "unknown" ∧
    calculateMatchScore m phs ≤ (bestMatch m).score ∧
    4/5 ≤ (classify m).2.2 := by
  have h7 : 7 ≤ calculateMatchScore m phs :=
    calculateMatchScore_ge_of_mem m phs m.labelText hph (strContains_self _) hfor
  have hle : calculateMatchScore m phs ≤ (bestMatch m).score :=
    foldl_bestStep_ge m (cat, sub, phs) catalogEntries hmem ⟨"unknown", "unknown", 0⟩
  have hbest : 7 ≤ (bestMatch m).score := le_trans h7 hle
  have hne : (bestMatch m).category ≠ "unknown" := by
    intro hu
    have := bestMatch_unknown_score m hu
    omega
  have hcat : categorizeField m = ((bestMatch m).category, (bestMatch m).subcategory) := by
    simp only [categorizeField]
    rw [if_neg]
    rintro (hu | hlt)
    · exact hne hu
    · omega
  refine ⟨?_, hle, ?_⟩
  · show (categorizeField m).1 ≠ "unknown"
    rw [hcat]
    exact hne
  · show 4/5 ≤ calculateConfidence m (categorizeField m).1 (categorizeField m).2
    rw [hcat]
    exact calculateConfidence_ge_of_labelFor m _ _ hne hfor

/-- Witness for C3 amended: an explicit label reading `email` is the first
trigger phrase of personal/email; the hypotheses hold and the conclusion is
obtained by applying the theorem. -/
theorem claim_C3_amended_witness :
    ("personal", "email", ["email", "e-mail", "email address", "e-mail address"])
        ∈ catalogEntries ∧
    emailLabelMeta.labelText ∈ ["email", "e-mail", "email address", "e-mail address"] ∧
    emailLabelMeta.labelForField = true ∧
    ((classify emailLabelMeta).1 ≠ "unknown" ∧
      calculateMatchScore emailLabelMeta
        ["email", "e-mail", "email address", "e-mail address"]
        ≤ (bestMatch emailLabelMeta).score ∧
      4/5 ≤ (classify emailLabelMeta).2.2) :=
  ⟨by decide, by decide, rfl,
    claim_C3_amended emailLabelMeta "personal" "email"
      ["email", "e-mail", "email address", "e-mail address"]
      (by decide) (by decide) rfl⟩

/-- C4: the match score is the sum over all trigger phrases of the weighted
per-channel contributions (label 5 plus 2 more under an explicit binding;
id, name and aria-label 3; placeholder 2; title 1; one per matching
data-attribute key or value), accumulated with no early exit. -/
theorem claim_C4_match_score_is_sum (m : FieldMetadata) (phrases : List String) :
    calculateMatchScore m phrases = (phrases.map (specPhraseScore m)).sum := by
  unfold calculateMatchScore
  rw [foldl_scoreStep]
  omega

/-- C5: the type/autocomplete fallback stage applies exactly when the best
pattern score is below 3 (a best category of `unknown` forces a score of 0,
so that disjunct adds nothing); when the best score is 3 or more the
pattern-derived pair is returned unchanged. -/
theorem claim_C5_fallback_iff (m : FieldMetadata) :
    categorizeField m =
      if (bestMatch m).score < 3 then
        typeFallback m ((bestMatch m).category, (bestMatch m).subcategory)
      else ((bestMatch m).category, (bestMatch m).subcategory) := by
  simp only [categorizeField]
  by_cases h : (bestMatch m).score < 3
  · rw [if_pos (Or.inr h), if_pos h]
  · have hcond : ¬((bestMatch m).category = "unknown" ∨ (bestMatch m).score < 3) := by
      rintro (hu | hlt)
      · have := bestMatch_unknown_score m hu
        omega
      · exact h hlt
    rw [if_neg hcond, if_neg h]

/-- Counterexample for C9 as stated: for the control with `id="email"`,
`type="email"` and no label, the pattern score against the personal/email
triggers is 3, not 0 (the id contains the trigger `email`), so the best
score is 3 and the type-based fallback branch is not entered. -/
theorem claim_C9_counterexample :
    calculateMatchScore emailMeta ["email", "e-mail", "email address", "e-mail address"] = 3 ∧
    (bestMatch emailMeta).score = 3 ∧
    ¬((bestMatch emailMeta).score = 0) ∧
    ¬((bestMatch emailMeta).category = "unknown" ∨ (bestMatch emailMeta).score < 3) := by
  refine ⟨rfl, rfl, by decide, by decide⟩

/-- C9 amended: the control with `id="email"`, `type="email"` and no label
classifies as personal/email with confidence 1 (which is at least 0.5), but
through the pattern match (score 3), not through the type-based fallback. -/
theorem claim_C9_amended :
    bestMatch emailMeta = ⟨"personal", "email", 3⟩ ∧
    categorizeField emailMeta = ("personal", "email") ∧
    classify emailMeta = ("personal", "email", 1) := by
  refine ⟨rfl, rfl, ?_⟩
  show (("personal", "email",
    calculateConfidence emailMeta "personal" "email") : String × String × ℚ)
      = ("personal", "email", 1)
  have h1 : strContains "email" "email" = true := by decide
  simp [calculateConfidence, emailMeta, h1]
  norm_num

/-- C10: whenever classification yields a category other than `unknown`,
the confidence is at least 0.5: the computation starts at the 0.5 baseline
and every adjustment is a non-negative additive boost. -/
theorem claim_C10_known_category_confidence (m : FieldMetadata)
    (h : (classify m).1 ≠ "unknown") : 1/2 ≤ (classify m).2.2 := by
  show 1/2 ≤ calculateConfidence m (categorizeField m).1 (categorizeField m).2
  exact calculateConfidence_ge_half m _ _ h

/-- Witness for C10: the email control classifies as personal (not
unknown), and applying the theorem bounds its confidence by 0.5. -/
theorem claim_C10_witness :
    (classify emailMeta).1 ≠ "unknown" ∧ 1/2 ≤ (classify emailMeta).2.2 :=
  ⟨by decide, claim_C10_known_category_confidence emailMeta (by decide)⟩

end FormDetector

namespace ResumeParser



theorem find?_map_overwrite (k v : String) :
    ∀ l : List (String × String), l.any (fun kv => kv.1 == k) = true →
      (l.map (fun kv => if kv.1 == k then (k, v) else kv)).find?
        (fun kv => kv.1 == k) = some (k, v) := by
  intro l
  induction l with
  | nil => intro h; simp at h
  | cons kv rest ih =>
    intro h
    cases hk : (kv.1 == k) with
    | true =>
      have hkk : kv.1 = k := by simpa using hk
      simp [List.find?_cons, hkk]
    | false =>
      have h' : rest.any (fun kv => kv.1 == k) = true := by
        rw [List.any_cons, hk] at h
        simpa using h
      simp only [List.map_cons, hk, if_false, Bool.false_eq_true, List.find?_cons_of_neg,
        Bool.not_eq_true]
      rw [List.find?_cons_of_neg _ (by simp [hk])]
      exact ih h'

theorem find?_map_keep (k v k' : String) (hne : k' ≠ k) :
    ∀ l : List (String × String),
      (l.map (fun kv => if kv.1 == k then (k, v) else kv)).find?
        (fun kv => kv.1 == k')
      = l.find? (fun kv => kv.1 == k') := by
  intro l
  induction l with
  | nil => simp
  | cons kv rest ih =>
    cases hk : (kv.1 == k) with
    | true =>
      have hkk : kv.1 = k := by simpa using hk
      have hnk : ((k, v).1 == k') = false := by
        simp [BEq.comm]
        exact fun he => hne he.symm
      have hnk2 : (kv.1 == k') = false := by
        simp [hkk]
        exact fun he => hne he.symm
      simp only [List.map_cons, hk, if_true]
      rw [List.find?_cons_of_neg _ (by simp_all), List.find?_cons_of_neg _ (by simp_all)]
      exact ih
    | false =>
      simp only [List.map_cons, hk]
      cases hk' : (kv.1 == k') with
      | true =>
        rw [if_neg (by simp [hk]), List.find?_cons_of_pos _ (by simpa using hk'),
          List.find?_cons_of_pos _ (by simpa using hk')]
      | false =>
        rw [if_neg (by simp [hk]), List.find?_cons_of_neg _ (by simp [hk']),
          List.find?_cons_of_neg _ (by simp [hk'])]
        exact ih

theorem getSection_assign_self (l : List (String × String)) (k v : String) :
    getSection (assign l k v) k = some v := by
  unfold assign getSection
  cases h : l.any (fun kv => kv.1 == k) with
  | true =>
    simp only [h, if_true]
    rw [find?_map_overwrite k v l h]
    rfl
  | false =>
    simp only [h, Bool.false_eq_true, if_false]
    have hnone : l.find? (fun kv => kv.1 == k) = none := by
      rw [List.find?_eq_none]
      intro x hx hpx
      have : l.any (fun kv => kv.1 == k) = true := List.any_eq_true.mpr ⟨x, hx, hpx⟩
      rw [h] at this
      cases this
    rw [List.find?_append, hnone]
    simp [List.find?_cons]

theorem getSection_assign_ne (l : List (String × String)) (k v k' : String)
    (hne : k' ≠ k) : getSection (assign l k v) k' = getSection l k' := by
  unfold assign getSection
  cases h : l.any (fun kv => kv.1 == k) with
  | true =>
    simp only [h, if_true]
    rw [find?_map_keep k v k' hne]
  | false =>
    simp only [h, Bool.false_eq_true, if_false]
    rw [List.find?_append]
    have hsingle : List.find? (fun kv => kv.1 == k') [(k, v)] = none := by
      have hbe : (k == k') = false := beq_eq_false_iff_ne.mpr (fun he => hne he.symm)
      simp [List.find?_cons, hbe]
    rw [hsingle]
    cases l.find? (fun kv => kv.1 == k') <;> rfl

theorem getSection_foldl_assign (kq : String) :
    ∀ (l : List (String × String)) (init : List (String × String)),
      getSection (l.foldl (fun acc ts => assign acc ts.1 ts.2) init) kq
        = match l.reverse.find? (fun ts => ts.1 == kq) with
          | some ts => some ts.2
          | none => getSection init kq := by
  intro l
  induction l with
  | nil => intro init; simp
  | cons x xs ih =>
    intro init
    rw [List.foldl_cons, ih (assign init x.1 x.2), List.reverse_cons, List.find?_append]
    cases hfind : xs.reverse.find? (fun ts => ts.1 == kq) with
    | some ts => rfl
    | none =>
      simp only [Option.none_or]
      cases hx : (x.1 == kq) with
      | true =>
        have hkq : x.1 = kq := by simpa using hx
        rw [List.find?_cons_of_pos _ (by simpa using hx)]
        subst hkq
        exact getSection_assign_self init x.1 x.2
      | false =>
        rw [List.find?_cons_of_neg _ (by simp [hx])]
        simp only [List.find?_nil]
        have hne2 : kq ≠ x.1 := by
          intro he
          rw [he] at hx
          simp at hx
        exact getSection_assign_ne init x.1 x.2 kq hne2

/-- C6: (1) a line index is recorded as a section boundary exactly when the
line, after trimming and lower-casing, equals a known header synonym or
that synonym followed by a colon — substring occurrences are never
boundaries; (2) the section object maps each key to the slice of the last
boundary carrying it (later boundaries of the same canonical section
overwrite earlier ones), falling back to the header binding. -/
theorem claim_C6_section_splitter :
    (∀ (lines : List String) (i : Nat),
      (∃ t, (t, i) ∈ findSectionBoundaries lines) ↔
        (i < lines.length ∧
          ∃ e ∈ sectionHeaderTable, ∃ hd ∈ e.2,
            (jsToLower (jsTrim (lines.getD i "")) = hd ∨
             jsToLower (jsTrim (lines.getD i "")) = hd ++ ":"))) ∧
    (∀ (text t : String),
      getSection (extractSections text) t =
        match (sectionSlices (resumeLines text)
            (findSectionBoundaries (resumeLines text))).reverse.find?
            (fun ts => ts.1 == t) with
        | some ts => some ts.2
        | none =>
          getSection
            [("header", joinLines ((resumeLines text).take
                (headerEndIndex (resumeLines text)
                  (findSectionBoundaries (resumeLines text)))))] t) := by
  constructor
  · intro lines i
    constructor
    · rintro ⟨t, hmem⟩
      obtain ⟨j, hj, hij, hht⟩ := (mem_findSectionBoundariesFrom t i lines 0).mp hmem
      have hji : j = i := by omega
      subst hji
      exact ⟨hj, (headerLineType_isSome_iff _).mp ⟨t, hht⟩⟩
    · rintro ⟨hlen, hex⟩
      obtain ⟨t, hht⟩ := (headerLineType_isSome_iff (lines.getD i "")).mpr hex
      exact ⟨t, (mem_findSectionBoundariesFrom t i lines 0).mpr ⟨i, hlen, by omega, hht⟩⟩
  · intro text t
    simp only [extractSections]
    exact getSection_foldl_assign t _ _

/-- Counterexample for C7 as stated: invoking `parse` with a non-string
value does not yield a record; the TypeError thrown by the first string
method is caught, logged and rethrown, so it propagates to the caller. -/
theorem claim_C7_counterexample :
    parse JSInput.nonString =
      Except.error "TypeError: text.replace is not a function" := rfl

/-- C7 amended: `parse` propagates the exception for a non-string input
(the catch block rethrows); for every string input it returns a defined
ResumeRecord without failing; and the entry extractors return an empty
array when their section text is absent. -/
theorem claim_C7_amended :
    (∀ s : String, ∃ r : ResumeRecord, parse (JSInput.str s) = Except.ok r) ∧
    (∃ e : String, parse JSInput.nonString = Except.error e) ∧
    parseExperience none = [] ∧
    parseEducation none = [] ∧
    parseSkills none = [] :=
  ⟨fun s =>
    ⟨{ personalInfo := parsePersonalInfo s ((getSection (extractSections s) "header").getD ""),
       experience := parseExperience (getSection (extractSections s) "experience"),
       education := parseEducation (getSection (extractSections s) "education"),
       skills := parseSkills (getSection (extractSections s) "skills"),
       rawText := s }, rfl⟩,
    ⟨_, rfl⟩, rfl, rfl, rfl⟩

/-- Counterexample for C8 as stated: on a prose skills section the
delimiter split yields fewer than 3 tokens and there are more than 10
whitespace-separated words, but the fallback removes every comma, period,
semicolon and colon from each token rather than only trailing ones: the
source returns `nodejs` where the claim predicts `node.js`. -/
theorem claim_C8_counterexample :
    (((splitRuns isSkillDelim proseSkillsText).map jsTrim).filter
        (fun s => 0 < s.length)).length < 3 ∧
    10 < (splitRuns isJsWs proseSkillsText).length ∧
    parseSkills (some proseSkillsText) ≠ claimedSkillsFallback proseSkillsText ∧
    "nodejs" ∈ parseSkills (some proseSkillsText) ∧
    "node.js" ∈ claimedSkillsFallback proseSkillsText := by
  refine ⟨by decide, by decide, by decide, by decide, by decide⟩

/-- C8 amended: `parseSkills` returns the trimmed nonempty delimiter-split
tokens; exactly when these number fewer than 3 and the text has more than
10 whitespace-separated words, it instead returns the whitespace tokens
with tokens of length at most 2 discarded and all comma, period, semicolon
and colon characters removed from each token.  In particular
`parseSkills "Python, Go, Rust"` is `["Python", "Go", "Rust"]`. -/
theorem claim_C8_amended :
    (∀ t : String,
      parseSkills (some t) =
        (let toks := ((splitRuns isSkillDelim t).map jsTrim).filter
            (fun s => 0 < s.length)
         let words := splitRuns isJsWs t
         if toks.length < 3 ∧ 10 < words.length then
           (words.filter (fun w => 2 < w.length)).map (fun w => removeSkillPunct (jsTrim w))
         else toks)) ∧
    parseSkills (some "Python, Go, Rust") = ["Python", "Go", "Rust"] := by
  constructor
  · intro t
    by_cases ht : t = ""
    · subst ht
      decide
    · simp only [parseSkills, if_neg ht]
      by_cases h1 : (((splitRuns isSkillDelim t).map jsTrim).filter
          (fun s => 0 < s.length)).length < 3
      · by_cases h2 : 10 < (splitRuns isJsWs t).length
        · simp [h1, h2]
        · simp [h1, h2]
      · by_cases h2 : 10 < (splitRuns isJsWs t).length
        · simp [h1, h2]
        · simp [h1, h2]
  · decide

end ResumeParser
